import Mathlib

/-!
Verification of the bgp.tools peering-analysis script
(`src/bgp.tools-peerfinder.py`).

The script is a linear pipeline: download the route table
(`download_table`), derive related ASNs by coarse prefix grouping
(`get_related_asns`), partition them by a digit-length heuristic
(`analyze_asn_relationships`), and write two sorted report files
(`write_results`).

Modelling conventions:
* Python strings are modelled as `List Char`; `str.strip`, single-character
  `str.split`, `int(...)` and `str(...)` are given executable models
  (`pyStrip`, `pySplit`, `parsePyInt`, `pyStr`) matching Python semantics on
  the ASCII data the script handles.
* Python dicts are association lists with unique keys; `d[k] = v` is
  `pyDictInsert` (in-place update, insertion order preserved, as in CPython)
  and `d.get(k)` is `pyDictGet` (first match; keys are unique).
* Python sets are `Finset`; `sorted(...)` is insertion sort by `≤`.
* Network input (HTTP bodies, whois responses) is passed to the modelled
  functions as explicit arguments.
-/

/-- Python whitespace test used by `str.strip` (the script's data is ASCII,
where `Char.isWhitespace` agrees with Python). -/
def isPySpace (c : Char) : Bool := c.isWhitespace

/-- Model of Python `str.strip()`: drop leading and trailing whitespace. -/
def pyStrip (l : List Char) : List Char :=
  ((l.dropWhile isPySpace).reverse.dropWhile isPySpace).reverse

/-- Model of Python `str.split(sep)` for a one-character separator `sep`
(the script only splits on `'|'`, `'\n'`, `'.'`, `':'`, `'/'`).
Empty pieces are kept and the result is never the empty list, as in Python. -/
def pySplit (sep : Char) : List Char → List (List Char)
  | [] => [[]]
  | c :: rest =>
    let r := pySplit sep rest
    if c = sep then [] :: r
    else (c :: r.headD []) :: r.tail

/-- Numeric value of a decimal digit character. -/
def digitVal (c : Char) : Nat := c.toNat - 48

/-- Model of Python `int(s)` on a string: strip whitespace, allow one
optional sign, then require a nonempty run of decimal digits.
`none` models `int` raising `ValueError`. -/
def parsePyInt (l : List Char) : Option Int :=
  let t := pyStrip l
  let (neg, core) :=
    match t with
    | '-' :: rest => (true, rest)
    | '+' :: rest => (false, rest)
    | _ => (false, t)
  if core ≠ [] ∧ core.all Char.isDigit then
    let n : Nat := core.foldl (fun acc c => acc * 10 + digitVal c) 0
    some (if neg then -(n : Int) else (n : Int))
  else none

/-- Model of Python `str(i)` for an integer: decimal digits, with a leading
minus sign for negative values. -/
def pyStr (i : Int) : List Char :=
  match i with
  | Int.ofNat n => Nat.toDigits 10 n
  | Int.negSucc n => '-' :: Nat.toDigits 10 (n + 1)

/-- Model of Python `sorted(...)` on integers (ascending). -/
def pySorted (l : List Int) : List Int := l.insertionSort (fun a b => a ≤ b)

/-- Python dict lookup `d.get(k)` on an association list whose keys are
unique (every dict built by the script has unique keys). -/
def pyDictGet {κ ν : Type} [DecidableEq κ] (d : List (κ × ν)) (k : κ) : Option ν :=
  match d with
  | [] => none
  | p :: rest => if p.1 = k then some p.2 else pyDictGet rest k

/-- Python dict assignment `d[k] = v`: if `k` is already a key its value is
replaced in place, otherwise the pair is appended (CPython insertion order). -/
def pyDictInsert {κ ν : Type} [DecidableEq κ] (d : List (κ × ν)) (k : κ) (v : ν) : List (κ × ν) :=
  if d.any (fun p => decide (p.1 = k)) then
    d.map (fun p => if p.1 = k then (k, v) else p)
  else d ++ [(k, v)]

/-- One line of the `table.jsonl` body after `json.loads`:
`malformed` is a line raising `json.JSONDecodeError` (this also covers
whitespace-only lines, which the script skips before parsing), and
`record c a` is a parsed object with `data.get('CIDR') = c` and
`data.get('ASN') = a`.  ASN values are modelled as integers, as in the
table export, so `int(asn)` is the identity on them. -/
inductive JsonLine where
  | malformed : JsonLine
  | record : Option (List Char) → Option Int → JsonLine
deriving DecidableEq

/-- Loop body of `download_table` (source lines 126-138): a malformed line
is skipped; a record is kept when `cidr and asn` is truthy in Python,
i.e. the CIDR is present and nonempty and the ASN is present and nonzero;
keeping a record assigns `prefix_to_asn[cidr] = int(asn)` and increments
`line_count`. -/
def processTableLine (st : List (List Char × Int) × Nat) (l : JsonLine) :
    List (List Char × Int) × Nat :=
  match l with
  | JsonLine.malformed => st
  | JsonLine.record cidr asn =>
    match cidr, asn with
    | some c, some n =>
      if c ≠ [] ∧ n ≠ 0 then (pyDictInsert st.1 c n, st.2 + 1) else st
    | _, _ => st

/-- Model of `download_table` (source lines 110-145), with the HTTP body passed in as
its parsed lines: returns the `prefix_to_asn` dict and `line_count`. -/
def download_table (lines : List JsonLine) : List (List Char × Int) × Nat :=
  lines.foldl processTableLine ([], 0)

/-- The records of the JSONL body that `download_table` retains, in order:
lines that decode and carry a truthy CIDR and a truthy ASN. -/
def retainedRecords (lines : List JsonLine) : List (List Char × Int) :=
  lines.filterMap (fun l =>
    match l with
    | JsonLine.record (some c) (some n) =>
      if c ≠ [] ∧ n ≠ 0 then some (c, n) else none
    | _ => none)

theorem pyDictGet_append {κ ν : Type} [DecidableEq κ] (xs ys : List (κ × ν)) (k : κ) :
    pyDictGet (xs ++ ys) k =
      match pyDictGet xs k with
      | some v => some v
      | none => pyDictGet ys k := by
  induction xs with
  | nil => simp [pyDictGet]
  | cons p rest ih =>
    by_cases h : p.1 = k <;> simp [pyDictGet, h, ih]

theorem pyDictGet_eq_none_of_not_any {κ ν : Type} [DecidableEq κ]
    (d : List (κ × ν)) (k : κ) (h : d.any (fun p => decide (p.1 = k)) = false) :
    pyDictGet d k = none := by
  induction d with
  | nil => rfl
  | cons p rest ih =>
    simp only [List.any_cons, Bool.or_eq_false_iff, decide_eq_false_iff_not] at h
    simp [pyDictGet, h.1, ih h.2]

theorem pyDictGet_map_update {κ ν : Type} [DecidableEq κ]
    (d : List (κ × ν)) (k : κ) (v : ν) (k' : κ) :
    pyDictGet (d.map (fun p => if p.1 = k then (k, v) else p)) k' =
      if k' = k then (if d.any (fun p => decide (p.1 = k)) then some v else none)
      else pyDictGet d k' := by
  induction d with
  | nil => by_cases h : k' = k <;> simp [pyDictGet, h]
  | cons p rest ih =>
    simp only [List.map_cons, List.any_cons]
    by_cases hp : p.1 = k
    · simp only [if_pos hp, decide_eq_true hp, Bool.true_or]
      by_cases hk : k' = k
      · subst hk
        simp [pyDictGet, hp]
      · have hk2 : ¬ k = k' := fun h => hk h.symm
        have hpk : ¬ p.1 = k' := by rw [hp]; exact hk2
        simp [pyDictGet, hk, hk2, hpk, ih]
    · simp only [if_neg hp, decide_eq_false hp, Bool.false_or]
      by_cases hpk : p.1 = k'
      · have hk : ¬ k' = k := fun h => hp (by rw [hpk, h])
        simp [pyDictGet, hpk, hk]
      · simp [pyDictGet, hpk, ih]

theorem pyDictGet_pyDictInsert {κ ν : Type} [DecidableEq κ]
    (d : List (κ × ν)) (k : κ) (v : ν) (k' : κ) :
    pyDictGet (pyDictInsert d k v) k' =
      if k' = k then some v else pyDictGet d k' := by
  unfold pyDictInsert
  cases hany : d.any (fun p => decide (p.1 = k)) with
  | true =>
    rw [if_pos rfl, pyDictGet_map_update, hany]
    by_cases hk : k' = k <;> simp [hk]
  | false =>
    rw [if_neg (by simp), pyDictGet_append]
    by_cases hk : k' = k
    · subst hk
      rw [pyDictGet_eq_none_of_not_any d k' hany]
      simp [pyDictGet]
    · have hk' : ¬ k = k' := fun h => hk h.symm
      cases hg : pyDictGet d k' with
      | some v' => simp [hg, hk]
      | none => simp [hg, hk, pyDictGet, hk']

/-- Lookup in the dict built by `download_table`, relative to an arbitrary
starting state: the last retained record for a key wins, and otherwise the
starting dict answers. -/
theorem download_table_get_general (lines : List JsonLine)
    (st : List (List Char × Int) × Nat) (c : List Char) :
    pyDictGet (lines.foldl processTableLine st).1 c =
      match pyDictGet (retainedRecords lines).reverse c with
      | some v => some v
      | none => pyDictGet st.1 c := by
  induction lines generalizing st with
  | nil => simp [retainedRecords, pyDictGet]
  | cons l rest ih =>
    cases l with
    | malformed =>
      simp only [List.foldl_cons, processTableLine]
      rw [ih]
      simp [retainedRecords]
    | record cidr asn =>
      cases cidr with
      | none =>
        simp only [List.foldl_cons, processTableLine]
        rw [ih]
        simp [retainedRecords]
      | some cs =>
        cases asn with
        | none =>
          simp only [List.foldl_cons, processTableLine]
          rw [ih]
          simp [retainedRecords]
        | some n =>
          by_cases hkeep : cs ≠ [] ∧ n ≠ 0
          · simp only [List.foldl_cons, processTableLine, if_pos hkeep]
            rw [ih]
            have hr : retainedRecords (JsonLine.record (some cs) (some n) :: rest) =
                (cs, n) :: retainedRecords rest := by
              simp [retainedRecords, hkeep]
            rw [hr]
            simp only [List.reverse_cons, pyDictGet_append]
            cases hg : pyDictGet (retainedRecords rest).reverse c with
            | some v => simp
            | none =>
              simp only
              rw [pyDictGet_pyDictInsert]
              by_cases hc : c = cs
              · simp [pyDictGet, hc]
              · have hc' : ¬ cs = c := fun h => hc h.symm
                simp [pyDictGet, hc, hc']
          · simp only [List.foldl_cons, processTableLine, if_neg hkeep]
            rw [ih]
            have hr : retainedRecords (JsonLine.record (some cs) (some n) :: rest) =
                retainedRecords rest := by
              simp [retainedRecords, hkeep]
            rw [hr]

theorem download_table_count_general (lines : List JsonLine)
    (st : List (List Char × Int) × Nat) :
    (lines.foldl processTableLine st).2 = st.2 + (retainedRecords lines).length := by
  induction lines generalizing st with
  | nil => simp [retainedRecords]
  | cons l rest ih =>
    cases l with
    | malformed => simp only [List.foldl_cons, processTableLine]; rw [ih]; simp [retainedRecords]
    | record cidr asn =>
      cases cidr with
      | none => simp only [List.foldl_cons, processTableLine]; rw [ih]; simp [retainedRecords]
      | some cs =>
        cases asn with
        | none => simp only [List.foldl_cons, processTableLine]; rw [ih]; simp [retainedRecords]
        | some n =>
          by_cases hkeep : cs ≠ [] ∧ n ≠ 0
          · simp only [List.foldl_cons, processTableLine, if_pos hkeep]
            rw [ih]
            simp [retainedRecords, hkeep]
            omega
          · simp only [List.foldl_cons, processTableLine, if_neg hkeep]
            rw [ih]
            simp [retainedRecords, hkeep]

theorem download_table_skip_malformed (lines : List JsonLine)
    (st : List (List Char × Int) × Nat) :
    lines.foldl processTableLine st =
      (lines.filter (fun l => decide (l ≠ JsonLine.malformed))).foldl processTableLine st := by
  induction lines generalizing st with
  | nil => rfl
  | cons l rest ih =>
    cases l with
    | malformed =>
      simp only [List.foldl_cons, processTableLine, List.filter_cons]
      simpa using ih st
    | record cidr asn =>
      simp only [List.foldl_cons, List.filter_cons]
      have : (decide (JsonLine.record cidr asn ≠ JsonLine.malformed)) = true := by
        simp
      rw [this]
      simp only [List.foldl_cons]
      exact ih _

/-- Loop body shared by the set-building loops of the script: insert the
extraction of the current element when it yields a value. -/
def optInsertStep {β γ : Type} [DecidableEq γ] (g : β → Option γ)
    (s : Finset γ) (x : β) : Finset γ :=
  match g x with
  | some z => insert z s
  | none => s

/-- Membership in a fold of `optInsertStep`. -/
theorem optInsert_fold_mem {β γ : Type} [DecidableEq γ] (g : β → Option γ)
    (xs : List β) (s : Finset γ) (y : γ) :
    y ∈ xs.foldl (optInsertStep g) s ↔ y ∈ s ∨ ∃ x ∈ xs, g x = some y := by
  induction xs generalizing s with
  | nil => simp
  | cons x rest ih =>
    simp only [List.foldl_cons]
    rw [ih]
    cases hg : g x with
    | none =>
      simp only [optInsertStep, hg, List.mem_cons]
      constructor
      · rintro (hs | ⟨q, hq, hgq⟩)
        · exact Or.inl hs
        · exact Or.inr ⟨q, Or.inr hq, hgq⟩
      · rintro (hs | ⟨q, (rfl | hq), hgq⟩)
        · exact Or.inl hs
        · rw [hg] at hgq; cases hgq
        · exact Or.inr ⟨q, hq, hgq⟩
    | some z =>
      simp only [optInsertStep, hg, Finset.mem_insert, List.mem_cons]
      constructor
      · rintro ((rfl | hs) | ⟨q, hq, hgq⟩)
        · exact Or.inr ⟨x, Or.inl rfl, hg⟩
        · exact Or.inl hs
        · exact Or.inr ⟨q, Or.inr hq, hgq⟩
      · rintro (hs | ⟨q, (rfl | hq), hgq⟩)
        · exact Or.inl (Or.inr hs)
        · rw [hg] at hgq
          exact Or.inl (Or.inl (Option.some_injective _ hgq).symm)
        · exact Or.inr ⟨q, hq, hgq⟩

/-- The coarse grouping key computed (twice, with identical code) inside
`get_related_asns` (source lines 246-259 and 262-276): for a prefix string
containing a slash take the part before the first slash; if it contains a
dot, join its first two dot-separated octets with a dot; otherwise, if it
contains a colon, join its first two colon-separated pieces with a colon.
`none` models the paths on which no network key is recorded. -/
def groupKey (pfx : List Char) : Option (List Char) :=
  if '/' ∈ pfx then
    let ip_part := (pySplit '/' pfx).getD 0 []
    if '.' ∈ ip_part then
      let octets := pySplit '.' ip_part
      if 2 ≤ octets.length then
        some (octets.getD 0 [] ++ '.' :: octets.getD 1 [])
      else none
    else if ':' ∈ ip_part then
      let pieces := pySplit ':' ip_part
      if 2 ≤ pieces.length then
        some (pieces.getD 0 [] ++ ':' :: pieces.getD 1 [])
      else none
    else none
  else none

/-- The `our_networks` set of `get_related_asns` (source lines 247-259):
grouping keys of the prefixes originated by the target ASN
(`our_prefixes`, source lines 235-238). -/
def our_networks (table_data : List (List Char × Int)) (target_asn : Int) :
    Finset (List Char) :=
  ((table_data.filter (fun p => decide (p.2 = target_asn))).map Prod.fst).foldl
    (optInsertStep groupKey) ∅

/-- Second-pass loop body of `get_related_asns` (source lines 262-276):
a row contributes its origin ASN when the ASN differs from the target and
the row's grouping key lies in `our_networks`. -/
def relatedOrigin (target_asn : Int) (nets : Finset (List Char))
    (p : List Char × Int) : Option Int :=
  if p.2 ≠ target_asn then
    match groupKey p.1 with
    | some k => if k ∈ nets then some p.2 else none
    | none => none
  else none

/-- Model of `get_related_asns` (source lines 224-279), with the downloaded
route-table mapping passed in as `table_data`: if the table is empty the
function returns the empty set early (source lines 231-232); otherwise it
collects the origin ASN of every row accepted by `relatedOrigin`. -/
def get_related_asns (table_data : List (List Char × Int)) (target_asn : Int) :
    Finset Int :=
  if table_data.isEmpty then ∅
  else
    table_data.foldl
      (optInsertStep (relatedOrigin target_asn (our_networks table_data target_asn))) ∅

theorem mem_our_networks (table_data : List (List Char × Int)) (target_asn : Int)
    (k : List Char) :
    k ∈ our_networks table_data target_asn ↔
      ∃ q ∈ table_data, q.2 = target_asn ∧ groupKey q.1 = some k := by
  unfold our_networks
  rw [optInsert_fold_mem groupKey]
  simp only [Finset.not_mem_empty, false_or, List.mem_map, List.mem_filter,
    decide_eq_true_eq]
  constructor
  · rintro ⟨pfx, ⟨q, ⟨hq, hqt⟩, rfl⟩, hk⟩
    exact ⟨q, hq, hqt, hk⟩
  · rintro ⟨q, hq, hqt, hk⟩
    exact ⟨q.1, ⟨q, ⟨hq, hqt⟩, rfl⟩, hk⟩

theorem relatedOrigin_eq_some (target_asn : Int) (nets : Finset (List Char))
    (p : List Char × Int) (a : Int) :
    relatedOrigin target_asn nets p = some a ↔
      p.2 = a ∧ p.2 ≠ target_asn ∧ ∃ k, groupKey p.1 = some k ∧ k ∈ nets := by
  unfold relatedOrigin
  by_cases hpt : p.2 ≠ target_asn
  · rw [if_pos hpt]
    cases hg : groupKey p.1 with
    | none =>
      simp only [hg]
      constructor
      · rintro h; cases h
      · rintro ⟨_, _, k, hk, _⟩; cases hk
    | some k' =>
      simp only [hg]
      by_cases hkn : k' ∈ nets
      · rw [if_pos hkn]
        constructor
        · rintro h
          exact ⟨Option.some_injective _ h, hpt, k', rfl, hkn⟩
        · rintro ⟨rfl, _, _⟩
          rfl
      · rw [if_neg hkn]
        constructor
        · rintro h; cases h
        · rintro ⟨_, _, k, hk, hknn⟩
          cases Option.some_injective _ hk
          exact absurd hknn hkn
  · rw [if_neg hpt]
    constructor
    · rintro h; cases h
    · rintro ⟨_, hpt', _⟩
      exact absurd hpt' hpt

/-- Membership characterisation of `get_related_asns`: an ASN is related
exactly when it differs from the target and originates some table row whose
grouping key is also the grouping key of some row originated by the target. -/
theorem mem_get_related_asns (table_data : List (List Char × Int)) (target_asn : Int)
    (a : Int) :
    a ∈ get_related_asns table_data target_asn ↔
      a ≠ target_asn ∧ ∃ p ∈ table_data, p.2 = a ∧
        ∃ k, groupKey p.1 = some k ∧
          ∃ q ∈ table_data, q.2 = target_asn ∧ groupKey q.1 = some k := by
  unfold get_related_asns
  by_cases hemp : table_data.isEmpty
  · rw [if_pos hemp]
    rw [List.isEmpty_iff] at hemp
    subst hemp
    simp
  · rw [if_neg hemp,
      optInsert_fold_mem (relatedOrigin target_asn (our_networks table_data target_asn))]
    simp only [Finset.not_mem_empty, false_or]
    constructor
    · rintro ⟨p, hp, hrel⟩
      rw [relatedOrigin_eq_some] at hrel
      obtain ⟨hpa, hpt, k, hk, hkn⟩ := hrel
      rw [mem_our_networks] at hkn
      exact ⟨hpa ▸ hpt, p, hp, hpa, k, hk, hkn⟩
    · rintro ⟨hat, p, hp, hpa, k, hk, q, hq, hqt, hqk⟩
      refine ⟨p, hp, ?_⟩
      rw [relatedOrigin_eq_some]
      exact ⟨hpa, hpa ▸ hat, k, hk,
        (mem_our_networks table_data target_asn k).mpr ⟨q, hq, hqt, hqk⟩⟩

/-- The function `pySplit` never returns the empty list (Python `split` always yields at
least one piece). -/
theorem pySplit_ne_nil (sep : Char) (l : List Char) : pySplit sep l ≠ [] := by
  cases l with
  | nil => simp [pySplit]
  | cons c rest =>
    simp only [pySplit]
    by_cases h : c = sep <;> simp [h]

/-- The number of pieces produced by `pySplit` is the separator count plus
one, as for Python `split`. -/
theorem pySplit_length (sep : Char) (l : List Char) :
    (pySplit sep l).length = l.count sep + 1 := by
  induction l with
  | nil => rfl
  | cons c rest ih =>
    by_cases h : c = sep
    · subst h
      simp [pySplit, List.count_cons, ih]
    · have hlen : 0 < (pySplit sep rest).length :=
        List.length_pos_of_ne_nil (pySplit_ne_nil sep rest)
      simp only [pySplit, if_neg h, List.length_cons, List.length_tail,
        List.count_cons, ih]
      have hcs : ¬ (c == sep) = true := by simpa using h
      simp [hcs]

/-- A line that splits into at least seven pipe-separated fields contains a
pipe character. -/
theorem pipe_mem_of_seven_fields (line : List Char)
    (h : 7 ≤ (pySplit '|' line).length) : '|' ∈ line := by
  rw [pySplit_length] at h
  exact List.count_pos_iff.mp (by omega)

/-- A non-whitespace character survives `dropWhile isPySpace`. -/
theorem mem_dropWhile_of_not_space (c : Char) (l : List Char) (hc : c ∈ l)
    (hcs : isPySpace c = false) : c ∈ l.dropWhile isPySpace := by
  induction l with
  | nil => cases hc
  | cons x rest ih =>
    by_cases hx : isPySpace x = true
    · rw [List.dropWhile_cons_of_pos hx]
      rcases List.mem_cons.mp hc with rfl | hc'
      · rw [hcs] at hx; cases hx
      · exact ih hc'
    · rw [List.dropWhile_cons_of_neg hx]
      exact hc

/-- A string containing a non-whitespace character does not strip to the
empty string. -/
theorem pyStrip_ne_nil_of_mem (c : Char) (l : List Char) (hc : c ∈ l)
    (hcs : isPySpace c = false) : pyStrip l ≠ [] := by
  unfold pyStrip
  have h1 : c ∈ l.dropWhile isPySpace := mem_dropWhile_of_not_space c l hc hcs
  have h2 : c ∈ (l.dropWhile isPySpace).reverse := List.mem_reverse.mpr h1
  have h3 : c ∈ (l.dropWhile isPySpace).reverse.dropWhile isPySpace :=
    mem_dropWhile_of_not_space c _ h2 hcs
  have h4 : c ∈ ((l.dropWhile isPySpace).reverse.dropWhile isPySpace).reverse :=
    List.mem_reverse.mpr h3
  exact List.ne_nil_of_mem h4

/-- Loop body of the parsing loop in `analyze_asn_relationships` (source
lines 314-333): skip blank lines; require at least 7 pipe-separated fields;
parse field 0 as the ASN (a `ValueError` skips the record); if the ASN is in
the input list and differs from the target, add it to the potential peers
when `len(str(asn)) == len(str(target_asn))` and to the non-peers
otherwise. -/
def processWhoisLine (target_asn : Int) (asn_list : List Int)
    (st : Finset Int × Finset Int) (line : List Char) : Finset Int × Finset Int :=
  if pyStrip line = [] then st
  else if 7 ≤ (pySplit '|' line).length then
    match parsePyInt (pyStrip ((pySplit '|' line).getD 0 [])) with
    | none => st
    | some asn =>
      if asn ∈ asn_list ∧ asn ≠ target_asn then
        if (pyStr asn).length = (pyStr target_asn).length then (insert asn st.1, st.2)
        else (st.1, insert asn st.2)
      else st
  else st

/-- The ASN a whois response line contributes to the classification loop:
`some a` exactly when the line is non-blank, has at least 7 pipe-separated
fields, and its field 0 parses as the integer `a`. -/
def lineAsn (line : List Char) : Option Int :=
  if pyStrip line = [] then none
  else if 7 ≤ (pySplit '|' line).length then
    parsePyInt (pyStrip ((pySplit '|' line).getD 0 []))
  else none

/-- The lines of one whois response: `result.strip().split('\n')` (source
line 313). -/
def linesOf (result : List Char) : List (List Char) := pySplit '\n' (pyStrip result)

/-- Model of `analyze_asn_relationships` (source lines 281-335), with the collected
bulk whois responses passed in as `all_results`: returns the pair
`(potential_peers, non_peers)`. -/
def analyze_asn_relationships (target_asn : Int) (asn_list : List Int)
    (all_results : List (List Char)) : Finset Int × Finset Int :=
  all_results.foldl
    (fun st result => (linesOf result).foldl (processWhoisLine target_asn asn_list) st)
    (∅, ∅)

/-- Classification condition for the potential-peer bucket. -/
def peerCond (target_asn : Int) (asn_list : List Int) (a : Int) : Prop :=
  a ∈ asn_list ∧ a ≠ target_asn ∧ (pyStr a).length = (pyStr target_asn).length

/-- Classification condition for the non-peer ("other") bucket. -/
def otherCond (target_asn : Int) (asn_list : List Int) (a : Int) : Prop :=
  a ∈ asn_list ∧ a ≠ target_asn ∧ (pyStr a).length ≠ (pyStr target_asn).length

theorem processWhoisLine_eq (target_asn : Int) (asn_list : List Int)
    (st : Finset Int × Finset Int) (line : List Char) :
    processWhoisLine target_asn asn_list st line =
      match lineAsn line with
      | none => st
      | some asn =>
        if asn ∈ asn_list ∧ asn ≠ target_asn then
          if (pyStr asn).length = (pyStr target_asn).length then (insert asn st.1, st.2)
          else (st.1, insert asn st.2)
        else st := by
  unfold processWhoisLine lineAsn
  by_cases hs : pyStrip line = []
  · rw [if_pos hs, if_pos hs]
  · rw [if_neg hs, if_neg hs]
    by_cases h7 : 7 ≤ (pySplit '|' line).length
    · rw [if_pos h7, if_pos h7]
    · rw [if_neg h7, if_neg h7]

theorem or_and_insert_iff {A E P q : Prop} (hq : q → P) :
    ((q ∨ A) ∨ (E ∧ P)) ↔ (A ∨ ((q ∨ E) ∧ P)) := by
  constructor
  · rintro ((hqq | hA) | ⟨hE, hP⟩)
    · exact Or.inr ⟨Or.inl hqq, hq hqq⟩
    · exact Or.inl hA
    · exact Or.inr ⟨Or.inr hE, hP⟩
  · rintro (hA | ⟨(hqq | hE), hP⟩)
    · exact Or.inl (Or.inr hA)
    · exact Or.inl (Or.inl hqq)
    · exact Or.inr ⟨hE, hP⟩

theorem or_and_skip_iff {A E P q : Prop} (hq : q → ¬P) :
    (A ∨ (E ∧ P)) ↔ (A ∨ ((q ∨ E) ∧ P)) := by
  constructor
  · rintro (hA | ⟨hE, hP⟩)
    · exact Or.inl hA
    · exact Or.inr ⟨Or.inr hE, hP⟩
  · rintro (hA | ⟨(hqq | hE), hP⟩)
    · exact Or.inl hA
    · exact absurd hP (hq hqq)
    · exact Or.inr ⟨hE, hP⟩

theorem whois_lines_fold_mem (target_asn : Int) (asn_list : List Int)
    (lines : List (List Char)) (st : Finset Int × Finset Int) (a : Int) :
    (a ∈ (lines.foldl (processWhoisLine target_asn asn_list) st).1 ↔
      a ∈ st.1 ∨ ((∃ line ∈ lines, lineAsn line = some a) ∧ peerCond target_asn asn_list a)) ∧
    (a ∈ (lines.foldl (processWhoisLine target_asn asn_list) st).2 ↔
      a ∈ st.2 ∨ ((∃ line ∈ lines, lineAsn line = some a) ∧ otherCond target_asn asn_list a)) := by
  induction lines generalizing st with
  | nil => simp
  | cons ln rest ih =>
    simp only [List.foldl_cons]
    rw [processWhoisLine_eq]
    have hex_cons : ∀ b : Int, lineAsn ln = some b →
        ((∃ line ∈ ln :: rest, lineAsn line = some a) ↔
          (a = b ∨ ∃ line ∈ rest, lineAsn line = some a)) := by
      intro b hg
      constructor
      · rintro ⟨q, hq, hqa⟩
        rcases List.mem_cons.mp hq with rfl | hq'
        · rw [hg] at hqa
          exact Or.inl (Option.some_injective _ hqa).symm
        · exact Or.inr ⟨q, hq', hqa⟩
      · rintro (rfl | ⟨q, hq, hqa⟩)
        · exact ⟨ln, List.mem_cons_self ln rest, hg⟩
        · exact ⟨q, List.mem_cons.mpr (Or.inr hq), hqa⟩
    have hex_none : lineAsn ln = none →
        ((∃ line ∈ ln :: rest, lineAsn line = some a) ↔
          (∃ line ∈ rest, lineAsn line = some a)) := by
      intro hg
      constructor
      · rintro ⟨q, hq, hqa⟩
        rcases List.mem_cons.mp hq with rfl | hq'
        · rw [hg] at hqa; cases hqa
        · exact ⟨q, hq', hqa⟩
      · rintro ⟨q, hq, hqa⟩
        exact ⟨q, List.mem_cons.mpr (Or.inr hq), hqa⟩
    cases hg : lineAsn ln with
    | none =>
      simp only [hg]
      obtain ⟨ih1, ih2⟩ := ih st
      rw [ih1, ih2, hex_none hg]
      exact ⟨Iff.rfl, Iff.rfl⟩
    | some b =>
      simp only [hg]
      rw [hex_cons b hg]
      by_cases hc : b ∈ asn_list ∧ b ≠ target_asn
      · rw [if_pos hc]
        by_cases hlen : (pyStr b).length = (pyStr target_asn).length
        · rw [if_pos hlen]
          obtain ⟨ih1, ih2⟩ := ih (insert b st.1, st.2)
          simp only at ih1 ih2
          rw [ih1, ih2]
          have hpa : a = b → peerCond target_asn asn_list a := by
            rintro rfl
            exact ⟨hc.1, hc.2, hlen⟩
          have hna : a = b → ¬ otherCond target_asn asn_list a := by
            rintro rfl h
            exact h.2.2 hlen
          constructor
          · simp only [Finset.mem_insert]
            exact or_and_insert_iff hpa
          · exact or_and_skip_iff hna
        · rw [if_neg hlen]
          obtain ⟨ih1, ih2⟩ := ih (st.1, insert b st.2)
          simp only at ih1 ih2
          rw [ih1, ih2]
          have hoa : a = b → otherCond target_asn asn_list a := by
            rintro rfl
            exact ⟨hc.1, hc.2, hlen⟩
          have hnp : a = b → ¬ peerCond target_asn asn_list a := by
            rintro rfl h
            exact hlen h.2.2
          constructor
          · exact or_and_skip_iff hnp
          · simp only [Finset.mem_insert]
            exact or_and_insert_iff hoa
      · rw [if_neg hc]
        obtain ⟨ih1, ih2⟩ := ih st
        rw [ih1, ih2]
        have hnp : a = b → ¬ peerCond target_asn asn_list a := by
          rintro rfl h
          exact hc ⟨h.1, h.2.1⟩
        have hno : a = b → ¬ otherCond target_asn asn_list a := by
          rintro rfl h
          exact hc ⟨h.1, h.2.1⟩
        exact ⟨or_and_skip_iff hnp, or_and_skip_iff hno⟩

/-- Membership characterisation of `analyze_asn_relationships`: an ASN lands
in the potential-peer (resp. non-peer) bucket exactly when some whois record
line yields it and the classification condition holds. -/
theorem mem_analyze_asn_relationships (target_asn : Int) (asn_list : List Int)
    (all_results : List (List Char)) (a : Int) :
    (a ∈ (analyze_asn_relationships target_asn asn_list all_results).1 ↔
      (∃ r ∈ all_results, ∃ line ∈ linesOf r, lineAsn line = some a) ∧
        peerCond target_asn asn_list a) ∧
    (a ∈ (analyze_asn_relationships target_asn asn_list all_results).2 ↔
      (∃ r ∈ all_results, ∃ line ∈ linesOf r, lineAsn line = some a) ∧
        otherCond target_asn asn_list a) := by
  unfold analyze_asn_relationships
  suffices h : ∀ st : Finset Int × Finset Int,
      (a ∈ (all_results.foldl
          (fun st result => (linesOf result).foldl (processWhoisLine target_asn asn_list) st)
          st).1 ↔
        a ∈ st.1 ∨ ((∃ r ∈ all_results, ∃ line ∈ linesOf r, lineAsn line = some a) ∧
          peerCond target_asn asn_list a)) ∧
      (a ∈ (all_results.foldl
          (fun st result => (linesOf result).foldl (processWhoisLine target_asn asn_list) st)
          st).2 ↔
        a ∈ st.2 ∨ ((∃ r ∈ all_results, ∃ line ∈ linesOf r, lineAsn line = some a) ∧
          otherCond target_asn asn_list a)) by
    obtain ⟨h1, h2⟩ := h (∅, ∅)
    constructor
    · rw [h1]; simp
    · rw [h2]; simp
  induction all_results with
  | nil => intro st; simp
  | cons r rs ih =>
    intro st
    simp only [List.foldl_cons]
    obtain ⟨ihr1, ihr2⟩ :=
      ih ((linesOf r).foldl (processWhoisLine target_asn asn_list) st)
    obtain ⟨hl1, hl2⟩ := whois_lines_fold_mem target_asn asn_list (linesOf r) st a
    have hexr : ∀ {c : Prop},
        ((∃ line ∈ linesOf r, lineAsn line = some a) ∧ c) ∨
          ((∃ q ∈ rs, ∃ line ∈ linesOf q, lineAsn line = some a) ∧ c) ↔
        ((∃ q ∈ r :: rs, ∃ line ∈ linesOf q, lineAsn line = some a) ∧ c) := by
      intro c
      constructor
      · rintro (⟨⟨line, hline, hla⟩, hc⟩ | ⟨⟨q, hq, line, hline, hla⟩, hc⟩)
        · exact ⟨⟨r, List.mem_cons_self r rs, line, hline, hla⟩, hc⟩
        · exact ⟨⟨q, List.mem_cons.mpr (Or.inr hq), line, hline, hla⟩, hc⟩
      · rintro ⟨⟨q, hq, line, hline, hla⟩, hc⟩
        rcases List.mem_cons.mp hq with rfl | hq'
        · exact Or.inl ⟨⟨line, hline, hla⟩, hc⟩
        · exact Or.inr ⟨⟨q, hq', line, hline, hla⟩, hc⟩
    constructor
    · rw [ihr1, hl1, or_assoc, hexr]
    · rw [ihr2, hl2, or_assoc, hexr]

/-- Entry block written per ASN by `write_results` (source lines 351-355 and
367-371): the label `AS<number>` with the display name from `asn_names`,
falling back to `AS<number>` when the ASN has no name entry. -/
def asnLabel (a : Int) : List Char := 'A' :: 'S' :: pyStr a

/-- The per-file report body built by `write_results` (source lines 337-377):
the ASNs of one bucket in the order produced by `sorted(...)`, each paired
with its display name `asn_names.get(asn, f'AS{asn}')`. -/
def report_entries (asns : List Int) (asn_names : List (Int × List Char)) :
    List (Int × List Char) :=
  (pySorted asns).map (fun a => (a, (pyDictGet asn_names a).getD (asnLabel a)))

/-- Model of `write_results` (source lines 337-377): renders the two buckets
(potential peers, then other ASNs) with the same per-file layout. -/
def write_results (peers : List Int) (non_peers : List Int)
    (asn_names : List (Int × List Char)) :
    List (Int × List Char) × List (Int × List Char) :=
  (report_entries peers asn_names, report_entries non_peers asn_names)

/-- ASN acceptance test of the interactive path (`get_user_input`, source
line 448): the loop repeats, i.e. the value is rejected, exactly when
`asn <= 0 or asn > 4294967295`. -/
def get_user_input_asn_accepts (asn : Int) : Bool :=
  if asn ≤ 0 ∨ asn > 4294967295 then false else true

/-- ASN acceptance test of the flag-based path (`main`, source lines
505-508): the program exits with an error exactly when
`target_asn <= 0 or target_asn > 4294967295`. -/
def main_asn_accepts (target_asn : Int) : Bool :=
  if target_asn ≤ 0 ∨ target_asn > 4294967295 then false else true

/-- Observable outcome of one `run_analysis` run (source lines 379-427):
whether the "No related ASNs found" notice was logged, the report files
written (`none` when the early return skips `write_results`), and the
process exit code (no `sys.exit` on the early-return path, hence 0). -/
structure AnalysisOutcome where
  noRelatedNotice : Bool
  reportFiles : Option ((List (Int × List Char)) × (List (Int × List Char)))
  exitCode : Nat
deriving DecidableEq

/-- Model of `run_analysis` (source lines 379-427), with all network input passed in:
the table body for `download_table`, the bulk whois responses for
`analyze_asn_relationships`, and the parsed `asns.csv` name map.  When
`get_related_asns` yields no ASN the run logs the notice and returns before
writing any report (source lines 400-402); the pure model has no exception
path, so the exit code is always 0.  The Python `list(related_asns)` has
unspecified order, passed to `analyze_asn_relationships` here in sorted
order; only membership in it is ever used. -/
def run_analysis (target_asn : Int) (tableLines : List JsonLine)
    (whoisResults : List (List Char)) (asn_names : List (Int × List Char)) :
    AnalysisOutcome :=
  let table_data := (download_table tableLines).1
  let related_asns := get_related_asns table_data target_asn
  if related_asns = ∅ then
    { noRelatedNotice := true, reportFiles := none, exitCode := 0 }
  else
    let pn := analyze_asn_relationships target_asn
      (related_asns.sort (fun a b => a ≤ b)) whoisResults
    { noRelatedNotice := false,
      reportFiles := some (write_results (pn.1.sort (fun a b => a ≤ b))
        (pn.2.sort (fun a b => a ≤ b)) asn_names),
      exitCode := 0 }

theorem lineAsn_of_seven_fields (line : List Char) (a : Int)
    (h7 : 7 ≤ (pySplit '|' line).length)
    (hp : parsePyInt (pyStrip ((pySplit '|' line).getD 0 [])) = some a) :
    lineAsn line = some a := by
  unfold lineAsn
  have hnb : pyStrip line ≠ [] :=
    pyStrip_ne_nil_of_mem '|' line (pipe_mem_of_seven_fields line h7) (by decide)
  rw [if_neg hnb, if_pos h7, hp]

/-- C1: for every whois record line with at least 7 pipe-delimited fields
whose field 0 parses as an integer ASN `a`, if `a` is in the related-ASN
input list and `a` is not the target ASN, then `analyze_asn_relationships`
classifies `a` as a potential peer iff the decimal digit-length of `a`
(the code's `len(str(asn))`) equals that of the target ASN, and as "other"
otherwise. -/
theorem C1_analyze_classifies_by_digit_length (target_asn : Int)
    (asn_list : List Int) (all_results : List (List Char)) (a : Int)
    (hline : ∃ r ∈ all_results, ∃ line ∈ linesOf r,
      7 ≤ (pySplit '|' line).length ∧
      parsePyInt (pyStrip ((pySplit '|' line).getD 0 [])) = some a)
    (hmem : a ∈ asn_list) (hne : a ≠ target_asn) :
    (a ∈ (analyze_asn_relationships target_asn asn_list all_results).1 ↔
      (pyStr a).length = (pyStr target_asn).length) ∧
    (a ∈ (analyze_asn_relationships target_asn asn_list all_results).2 ↔
      (pyStr a).length ≠ (pyStr target_asn).length) := by
  obtain ⟨r, hr, line, hl, h7, hp⟩ := hline
  have hex : ∃ r ∈ all_results, ∃ line ∈ linesOf r, lineAsn line = some a :=
    ⟨r, hr, line, hl, lineAsn_of_seven_fields line a h7 hp⟩
  obtain ⟨h1, h2⟩ := mem_analyze_asn_relationships target_asn asn_list all_results a
  constructor
  · rw [h1]
    constructor
    · rintro ⟨_, _, _, hlen⟩
      exact hlen
    · intro hlen
      exact ⟨hex, hmem, hne, hlen⟩
  · rw [h2]
    constructor
    · rintro ⟨_, _, _, hlen⟩
      exact hlen
    · intro hlen
      exact ⟨hex, hmem, hne, hlen⟩

theorem C1_witness :
    (∃ r ∈ [("34 | p | r | c | US | d | Example Co".toList)], ∃ line ∈ linesOf r,
      7 ≤ (pySplit '|' line).length ∧
      parsePyInt (pyStrip ((pySplit '|' line).getD 0 [])) = some 34) ∧
    (34 : Int) ∈ [(34 : Int)] ∧ (34 : Int) ≠ 12 ∧
    ((34 : Int) ∈ (analyze_asn_relationships 12 [34]
        [("34 | p | r | c | US | d | Example Co".toList)]).1 ↔
      (pyStr 34).length = (pyStr 12).length) :=
  ⟨by decide, by decide, by decide,
    (C1_analyze_classifies_by_digit_length 12 [34]
      [("34 | p | r | c | US | d | Example Co".toList)] 34
      (by decide) (by decide) (by decide)).1⟩

/-- Demonstration route table for C2: AS10 originates 1.2.3.0/24 and
1.2.4.0/24; AS20 announces 1.2.9.0/24 (same first-two-octet key); AS30
announces 9.9.9.0/24 (a different key). -/
def demoTable : List (List Char × Int) :=
  [("1.2.3.0/24".toList, 10), ("1.2.4.0/24".toList, 10),
   ("1.2.9.0/24".toList, 20), ("9.9.9.0/24".toList, 30)]

/-- C2: `get_related_asns` keys each prefix originated by the target by its
first two IPv4 octets (or first two IPv6 hextets) and returns exactly the
origin ASNs of other rows whose prefix falls in one of those keys; on the
concrete table where AS10 originates 1.2.3.0/24 and 1.2.4.0/24 the key set
is `{"1.2"}` and exactly the other ASN announcing a 1.2.* prefix is
returned. -/
theorem C2_related_asns_characterisation :
    (∀ (table_data : List (List Char × Int)) (target_asn a : Int),
      a ∈ get_related_asns table_data target_asn ↔
        a ≠ target_asn ∧ ∃ p ∈ table_data, p.2 = a ∧
          ∃ k, groupKey p.1 = some k ∧
            ∃ q ∈ table_data, q.2 = target_asn ∧ groupKey q.1 = some k) ∧
    groupKey ("1.2.3.0/24".toList) = some ("1.2".toList) ∧
    groupKey ("2001:db8:9::/48".toList) = some ("2001:db8".toList) ∧
    our_networks demoTable 10 = {"1.2".toList} ∧
    get_related_asns demoTable 10 = {20} :=
  ⟨mem_get_related_asns, by decide, by decide, by decide, by decide⟩

/-- C3: the potential-peer and other buckets returned by
`analyze_asn_relationships` are disjoint, and their union is exactly the set
of input ASNs, the target excluded, that appear as the parsed first field of
some whois record line; input ASNs absent from the response are in
neither. -/
theorem C3_partition_of_input (target_asn : Int) (asn_list : List Int)
    (all_results : List (List Char)) :
    ((analyze_asn_relationships target_asn asn_list all_results).1 ∩
      (analyze_asn_relationships target_asn asn_list all_results).2 = ∅) ∧
    (∀ a : Int,
      a ∈ (analyze_asn_relationships target_asn asn_list all_results).1 ∪
        (analyze_asn_relationships target_asn asn_list all_results).2 ↔
      a ∈ asn_list ∧ a ≠ target_asn ∧
        ∃ r ∈ all_results, ∃ line ∈ linesOf r, lineAsn line = some a) := by
  constructor
  · rw [Finset.eq_empty_iff_forall_not_mem]
    intro a ha
    rw [Finset.mem_inter] at ha
    obtain ⟨hp, ho⟩ := ha
    obtain ⟨h1, h2⟩ := mem_analyze_asn_relationships target_asn asn_list all_results a
    rw [h1] at hp
    rw [h2] at ho
    exact ho.2.2.2 hp.2.2.2
  · intro a
    obtain ⟨h1, h2⟩ := mem_analyze_asn_relationships target_asn asn_list all_results a
    rw [Finset.mem_union, h1, h2]
    constructor
    · rintro (⟨hex, hm, hn, _⟩ | ⟨hex, hm, hn, _⟩)
      · exact ⟨hm, hn, hex⟩
      · exact ⟨hm, hn, hex⟩
    · rintro ⟨hm, hn, hex⟩
      by_cases hlen : (pyStr a).length = (pyStr target_asn).length
      · exact Or.inl ⟨hex, hm, hn, hlen⟩
      · exact Or.inr ⟨hex, hm, hn, hlen⟩

/-- C4: `download_table` parses lines independently: dropping the malformed
lines leaves the result (mapping and count) unchanged, the count equals the
number of retained valid records, and lookup in the mapping is
last-write-wins over the retained records (records with both a truthy CIDR
and a truthy ASN). -/
theorem C4_download_table_malformed_skipped (lines : List JsonLine) :
    download_table lines =
      download_table (lines.filter (fun l => decide (l ≠ JsonLine.malformed))) ∧
    (download_table lines).2 = (retainedRecords lines).length ∧
    (∀ c : List Char, pyDictGet (download_table lines).1 c =
      pyDictGet (retainedRecords lines).reverse c) := by
  refine ⟨download_table_skip_malformed lines ([], 0), ?_, ?_⟩
  · have h := download_table_count_general lines ([], 0)
    unfold download_table
    simpa using h
  · intro c
    have h := download_table_get_general lines ([], 0) c
    unfold download_table
    rw [h]
    cases hg : pyDictGet (retainedRecords lines).reverse c with
    | none => simp [pyDictGet]
    | some v => simp

/-- C5: if the route table download yields an empty mapping then
`get_related_asns` returns the empty set, and `run_analysis` takes the
early-return path: it logs the "No related ASNs found" notice, writes no
report files, and the process exits with code 0. -/
theorem C5_empty_table_early_exit (target_asn : Int) (tableLines : List JsonLine)
    (whoisResults : List (List Char)) (asn_names : List (Int × List Char))
    (hempty : (download_table tableLines).1 = []) :
    get_related_asns (download_table tableLines).1 target_asn = ∅ ∧
    run_analysis target_asn tableLines whoisResults asn_names =
      { noRelatedNotice := true, reportFiles := none, exitCode := 0 } := by
  have hrel : get_related_asns (download_table tableLines).1 target_asn = ∅ := by
    rw [hempty]
    unfold get_related_asns
    simp
  refine ⟨hrel, ?_⟩
  unfold run_analysis
  dsimp only
  rw [hrel]
  simp

theorem C5_witness :
    (download_table [JsonLine.malformed]).1 = [] ∧
    run_analysis 6939 [JsonLine.malformed] [] [] =
      { noRelatedNotice := true, reportFiles := none, exitCode := 0 } :=
  ⟨by decide, (C5_empty_table_early_exit 6939 [JsonLine.malformed] [] [] (by decide)).2⟩

/-- C6: each report file renders its ASN set in ascending numeric order
regardless of the input iteration order, with the display name from the
ASN-name mapping and the fallback label `AS<number>` when absent; on the
set `{100, 64512, 7}` the rendered order is `7, 100, 64512`. -/
theorem C6_report_sorted_ascending (asns asns' : List Int)
    (asn_names : List (Int × List Char)) :
    (write_results asns asns' asn_names =
      (report_entries asns asn_names, report_entries asns' asn_names)) ∧
    ((report_entries asns asn_names).map Prod.fst = pySorted asns) ∧
    List.Sorted (fun a b => a ≤ b) ((report_entries asns asn_names).map Prod.fst) ∧
    (asns.Perm asns' → report_entries asns asn_names = report_entries asns' asn_names) ∧
    ((report_entries [100, 64512, 7] asn_names).map Prod.fst = [7, 100, 64512]) ∧
    (∀ a : Int, pyDictGet asn_names a = none →
      report_entries [a] asn_names = [(a, asnLabel a)]) := by
  have hfst : ∀ l : List Int, (report_entries l asn_names).map Prod.fst = pySorted l := by
    intro l
    unfold report_entries
    rw [List.map_map]
    exact List.map_id (pySorted l)
  refine ⟨rfl, hfst asns, ?_, ?_, ?_, ?_⟩
  · rw [hfst asns]
    exact List.sorted_insertionSort _ _
  · intro hperm
    unfold report_entries
    have hsort : pySorted asns = pySorted asns' := by
      apply List.eq_of_perm_of_sorted
        (((List.perm_insertionSort _ asns).trans hperm).trans
          (List.perm_insertionSort _ asns').symm)
        (List.sorted_insertionSort _ asns) (List.sorted_insertionSort _ asns')
    rw [hsort]
  · rw [hfst [100, 64512, 7]]
    decide
  · intro a h
    unfold report_entries pySorted
    simp [List.insertionSort, h]

theorem C6_witness :
    ([100, 64512, 7] : List Int).Perm [7, 64512, 100] ∧
    report_entries [100, 64512, 7] [] = report_entries [7, 64512, 100] [] ∧
    (report_entries [100, 64512, 7] [] ).map Prod.fst = [7, 100, 64512] ∧
    pyDictGet ([] : List (Int × List Char)) 7 = none ∧
    report_entries [7] [] = [(7, asnLabel 7)] :=
  ⟨by decide,
    (C6_report_sorted_ascending [100, 64512, 7] [7, 64512, 100] []).2.2.2.1 (by decide),
    (C6_report_sorted_ascending [100, 64512, 7] [7, 64512, 100] []).2.2.2.2.1,
    by decide,
    (C6_report_sorted_ascending [100, 64512, 7] [7, 64512, 100] []).2.2.2.2.2 7 (by decide)⟩

/-- C7: the interactive input path and the flag-based path agree on
acceptance of every integer ASN value, and both accept exactly the range
`1 ≤ n ≤ 4294967295`. -/
theorem C7_input_paths_agree (n : Int) :
    get_user_input_asn_accepts n = main_asn_accepts n ∧
    (get_user_input_asn_accepts n = true ↔ 1 ≤ n ∧ n ≤ 4294967295) := by
  refine ⟨rfl, ?_⟩
  unfold get_user_input_asn_accepts
  by_cases h : n ≤ 0 ∨ n > 4294967295
  · rw [if_pos h]
    simp only [Bool.false_eq_true, false_iff]
    omega
  · rw [if_neg h]
    simp only [true_iff]
    omega

/-- C8: the related-ASN set returned by `get_related_asns` never contains
the target ASN itself. -/
theorem C8_target_never_related (table_data : List (List Char × Int))
    (target_asn : Int) :
    get_related_asns table_data target_asn ∩ {target_asn} = ∅ := by
  rw [Finset.eq_empty_iff_forall_not_mem]
  intro a ha
  rw [Finset.mem_inter, Finset.mem_singleton] at ha
  obtain ⟨hrel, rfl⟩ := ha
  exact ((mem_get_related_asns table_data a a).mp hrel).1 rfl

theorem lineAsn_eq_of_same_field0 (l1 l2 : List Char)
    (h1 : 7 ≤ (pySplit '|' l1).length) (h2 : 7 ≤ (pySplit '|' l2).length)
    (h0 : (pySplit '|' l1).getD 0 [] = (pySplit '|' l2).getD 0 []) :
    lineAsn l1 = lineAsn l2 := by
  unfold lineAsn
  have hs1 : pyStrip l1 ≠ [] :=
    pyStrip_ne_nil_of_mem '|' l1 (pipe_mem_of_seven_fields l1 h1) (by decide)
  have hs2 : pyStrip l2 ≠ [] :=
    pyStrip_ne_nil_of_mem '|' l2 (pipe_mem_of_seven_fields l2 h2) (by decide)
  rw [if_neg hs1, if_neg hs2, if_pos h1, if_pos h2, h0]

/-- C9: the classification depends only on the parsed first fields: two
batch responses whose record lines (each with at least 7 fields) carry the
same sequence of first fields, but arbitrary differing country (field 4)
and organisation-name (field 6) values, produce identical partitions. -/
theorem C9_classification_ignores_other_fields (target_asn : Int)
    (asn_list : List Int) (results1 results2 : List (List Char))
    (h : List.Forall₂
      (fun l1 l2 => 7 ≤ (pySplit '|' l1).length ∧ 7 ≤ (pySplit '|' l2).length ∧
        (pySplit '|' l1).getD 0 [] = (pySplit '|' l2).getD 0 [])
      (results1.flatMap linesOf) (results2.flatMap linesOf)) :
    analyze_asn_relationships target_asn asn_list results1 =
      analyze_asn_relationships target_asn asn_list results2 := by
  have hconv : ∀ (rs : List (List Char)) (a : Int),
      (∃ r ∈ rs, ∃ line ∈ linesOf r, lineAsn line = some a) ↔
      (∃ line ∈ rs.flatMap linesOf, lineAsn line = some a) := by
    intro rs a
    constructor
    · rintro ⟨r, hr, line, hl, hla⟩
      exact ⟨line, List.mem_flatMap.mpr ⟨r, hr, hl⟩, hla⟩
    · rintro ⟨line, hfm, hla⟩
      obtain ⟨r, hr, hl⟩ := List.mem_flatMap.mp hfm
      exact ⟨r, hr, line, hl, hla⟩
  have hgen : ∀ (L1 L2 : List (List Char)),
      List.Forall₂
        (fun l1 l2 => 7 ≤ (pySplit '|' l1).length ∧ 7 ≤ (pySplit '|' l2).length ∧
          (pySplit '|' l1).getD 0 [] = (pySplit '|' l2).getD 0 []) L1 L2 →
      ∀ a : Int,
        ((∃ line ∈ L1, lineAsn line = some a) ↔ (∃ line ∈ L2, lineAsn line = some a)) := by
    intro L1 L2 h12
    induction h12 with
    | nil => simp
    | cons hpair hrest ihh =>
      rename_i x y M1 M2
      intro a
      have hxy : lineAsn x = lineAsn y :=
        lineAsn_eq_of_same_field0 x y hpair.1 hpair.2.1 hpair.2.2
      constructor
      · rintro ⟨line, hl, hla⟩
        rcases List.mem_cons.mp hl with rfl | hl'
        · exact ⟨y, List.mem_cons_self y M2, hxy ▸ hla⟩
        · obtain ⟨line', hl2, hla2⟩ := (ihh a).mp ⟨line, hl', hla⟩
          exact ⟨line', List.mem_cons.mpr (Or.inr hl2), hla2⟩
      · rintro ⟨line, hl, hla⟩
        rcases List.mem_cons.mp hl with rfl | hl'
        · exact ⟨x, List.mem_cons_self x M1, hxy ▸ hla⟩
        · obtain ⟨line', hl1, hla1⟩ := (ihh a).mpr ⟨line, hl', hla⟩
          exact ⟨line', List.mem_cons.mpr (Or.inr hl1), hla1⟩
  have hlines : ∀ a : Int,
      (∃ line ∈ results1.flatMap linesOf, lineAsn line = some a) ↔
      (∃ line ∈ results2.flatMap linesOf, lineAsn line = some a) :=
    hgen (results1.flatMap linesOf) (results2.flatMap linesOf) h
  have hfst : (analyze_asn_relationships target_asn asn_list results1).1 =
      (analyze_asn_relationships target_asn asn_list results2).1 := by
    apply Finset.ext
    intro a
    rw [(mem_analyze_asn_relationships target_asn asn_list results1 a).1,
      (mem_analyze_asn_relationships target_asn asn_list results2 a).1,
      hconv results1 a, hconv results2 a, hlines a]
  have hsnd : (analyze_asn_relationships target_asn asn_list results1).2 =
      (analyze_asn_relationships target_asn asn_list results2).2 := by
    apply Finset.ext
    intro a
    rw [(mem_analyze_asn_relationships target_asn asn_list results1 a).2,
      (mem_analyze_asn_relationships target_asn asn_list results2 a).2,
      hconv results1 a, hconv results2 a, hlines a]
  exact Prod.ext hfst hsnd

theorem C9_witness :
    List.Forall₂
      (fun l1 l2 => 7 ≤ (pySplit '|' l1).length ∧ 7 ≤ (pySplit '|' l2).length ∧
        (pySplit '|' l1).getD 0 [] = (pySplit '|' l2).getD 0 [])
      ([("64496|p|r|c|US|d|Name A".toList)].flatMap linesOf)
      ([("64496|p|r|c|DE|d|Name B".toList)].flatMap linesOf) ∧
    analyze_asn_relationships 64511 [64496] [("64496|p|r|c|US|d|Name A".toList)] =
      analyze_asn_relationships 64511 [64496] [("64496|p|r|c|DE|d|Name B".toList)] :=
  have hf : List.Forall₂
      (fun l1 l2 => 7 ≤ (pySplit '|' l1).length ∧ 7 ≤ (pySplit '|' l2).length ∧
        (pySplit '|' l1).getD 0 [] = (pySplit '|' l2).getD 0 [])
      ([("64496|p|r|c|US|d|Name A".toList)].flatMap linesOf)
      ([("64496|p|r|c|DE|d|Name B".toList)].flatMap linesOf) :=
    List.Forall₂.cons (by decide) List.Forall₂.nil
  ⟨hf, C9_classification_ignores_other_fields 64511 [64496]
    [("64496|p|r|c|US|d|Name A".toList)] [("64496|p|r|c|DE|d|Name B".toList)] hf⟩

theorem mem_pyDictInsert {κ ν : Type} [DecidableEq κ] (d : List (κ × ν))
    (k : κ) (v : ν) (p : κ × ν) (hp : p ∈ pyDictInsert d k v) :
    p ∈ d ∨ p = (k, v) := by
  unfold pyDictInsert at hp
  by_cases hany : d.any (fun p => decide (p.1 = k)) = true
  · rw [if_pos hany] at hp
    obtain ⟨q, hq, hqp⟩ := List.mem_map.mp hp
    by_cases hqk : q.1 = k
    · rw [if_pos hqk] at hqp
      exact Or.inr hqp.symm
    · rw [if_neg hqk] at hqp
      exact Or.inl (hqp ▸ hq)
  · rw [if_neg hany] at hp
    rcases List.mem_append.mp hp with hd | hs
    · exact Or.inl hd
    · exact Or.inr (List.mem_singleton.mp hs)

theorem download_table_mem_general (lines : List JsonLine)
    (st : List (List Char × Int) × Nat)
    (hst : ∀ p ∈ st.1, p.1 ≠ [] ∧ p.2 ≠ 0) :
    ∀ p ∈ (lines.foldl processTableLine st).1, p.1 ≠ [] ∧ p.2 ≠ 0 := by
  induction lines generalizing st with
  | nil => exact hst
  | cons l rest ih =>
    simp only [List.foldl_cons]
    apply ih
    intro q hq
    cases l with
    | malformed => exact hst q hq
    | record cidr asn =>
      cases cidr with
      | none => exact hst q hq
      | some cs =>
        cases asn with
        | none => exact hst q hq
        | some n =>
          by_cases hkeep : cs ≠ [] ∧ n ≠ 0
          · simp only [processTableLine, if_pos hkeep] at hq
            rcases mem_pyDictInsert st.1 cs n q hq with hd | rfl
            · exact hst q hd
            · exact hkeep
          · simp only [processTableLine, if_neg hkeep] at hq
            exact hst q hq

/-- C10: a decoded JSONL record with both fields present is still dropped
when the ASN value is 0 or the CIDR is the empty string (Python falsiness),
and consequently the mapping built by `download_table` never contains an
empty-string key or a zero ASN value. -/
theorem C10_falsy_fields_dropped (lines : List JsonLine)
    (st : List (List Char × Int) × Nat) (c : List Char) (n : Int)
    (h : c = [] ∨ n = 0) :
    processTableLine st (JsonLine.record (some c) (some n)) = st ∧
    ∀ p ∈ (download_table lines).1, p.1 ≠ [] ∧ p.2 ≠ 0 := by
  constructor
  · simp only [processTableLine]
    rw [if_neg]
    rintro ⟨hc, hn⟩
    rcases h with h | h
    · exact hc h
    · exact hn h
  · exact download_table_mem_general lines ([], 0) (by simp)

theorem C10_witness :
    (([] : List Char) = [] ∨ (5 : Int) = 0) ∧
    processTableLine (([], 0) : List (List Char × Int) × Nat)
      (JsonLine.record (some []) (some 5)) = ([], 0) ∧
    ∀ p ∈ (download_table
      [JsonLine.record (some ("1.2.3.0/24".toList)) (some 7),
       JsonLine.record (some []) (some 5),
       JsonLine.record (some ("0.0.0.0/0".toList)) (some 0)]).1,
      p.1 ≠ [] ∧ p.2 ≠ 0 :=
  ⟨Or.inl rfl,
    (C10_falsy_fields_dropped [] (([], 0) : List (List Char × Int) × Nat) [] 5
      (Or.inl rfl)).1,
    (C10_falsy_fields_dropped
      [JsonLine.record (some ("1.2.3.0/24".toList)) (some 7),
       JsonLine.record (some []) (some 5),
       JsonLine.record (some ("0.0.0.0/0".toList)) (some 0)]
      (([], 0) : List (List Char × Int) × Nat) [] 5 (Or.inl rfl)).2⟩
